import Mathlib

/-!
Domain extraction from an e-mail like string: `getdomain.c`.

A shallow embedding of `examples/in-memory-fuzzer/getdomain.c`.

* Bytes (`char`) are natural numbers; a C string is the run of bytes in front
  of the first `NUL` byte of a memory block.
* The argument string of `parse` lives in one memory block (a `List Nat`);
  a `char *` into that block is an offset, a null pointer is `none`.
* `strtok`, `strcpy`, `puts`, `printf` and `strdup` are the C library
  functions the program calls; they are modelled after ISO C (7.24.5.8 for
  `strtok`), with the hidden static pointer of `strtok` made an explicit
  piece of state.
* The `for (;;)` loop of `parse` is a fuel-indexed recursion; running out of
  fuel is `none`, and the theorems show that two units of fuel always suffice.
* Storing past the end of `char buffer[1024]` is undefined behaviour; the
  embedding stops there with the result `Result.undefined`.
-/

namespace GetDomain

/-- The terminating null character of a C string. -/
def NUL : Nat := 0

/-- The character `'@'`, the only delimiter handed to `strtok`. -/
def AT : Nat := 64

/-- Number of elements of `char buffer[1024]`. -/
def BUFSIZE : Nat := 1024

/-- The bytes of an ASCII string literal of the program text. -/
def ascii (s : String) : List Nat := s.toList.map Char.toNat

/-- The byte at address `p`. -/
def load (mem : List Nat) (p : Nat) : Nat := mem.getD p NUL

/-- Memory after the byte at address `p` is overwritten by `v`. -/
def store (mem : List Nat) (p : Nat) (v : Nat) : List Nat := mem.set p v

/-- The C string that starts at address `p`: the bytes in front of the first
`NUL`. -/
def cstr (mem : List Nat) (p : Nat) : List Nat :=
  (mem.drop p).takeWhile (fun c => c != NUL)

/-- Library `strspn(mem + p, delim)`: length of the leading run of bytes that
belong to `delim`. -/
def strspn (mem : List Nat) (p : Nat) (delim : List Nat) : Nat :=
  ((mem.drop p).takeWhile (fun c => c != NUL && delim.contains c)).length

/-- Library `strcspn(mem + p, delim)`: length of the leading run of bytes that
do not belong to `delim`. -/
def strcspn (mem : List Nat) (p : Nat) (delim : List Nat) : Nat :=
  ((mem.drop p).takeWhile (fun c => c != NUL && !delim.contains c)).length

/-- Library `strtok(s, delim)` over the memory block `mem`, with the hidden
static pointer `save` made explicit.  The result is the returned token pointer,
the memory afterwards and the new saved pointer.

A null `s` continues from the saved pointer.  Leading delimiters are skipped;
when the string ends there, no token is left and a null pointer is returned.
Otherwise the token runs up to the next delimiter, which is overwritten by a
null character, and the search resumes behind it on the next call. -/
def strtok (mem : List Nat) (save : Option Nat) (s : Option Nat) (delim : List Nat) :
    Option Nat × List Nat × Option Nat :=
  match s.orElse (fun _ => save) with
  | none => (none, mem, save)
  | some p =>
    let b := p + strspn mem p delim
    if load mem b = NUL then (none, mem, some b)
    else
      let e := b + strcspn mem b delim
      if load mem e = NUL then (some b, mem, some e)
      else (some b, store mem e NUL, some (e + 1))

/-- Library `strcpy(dst, src)`: the bytes stored from `dst[0]` upwards, which
are the source string and its terminator.  No bound is involved. -/
def strcpy (src : List Nat) : List Nat := src ++ [NUL]

/-- Source `print_domain`: `printf("Domain is %s\n", domain)`, as the bytes
sent to standard output; `domain` is the memory the pointer refers to. -/
def print_domain (domain : List Nat) : List Nat :=
  ascii "Domain is " ++ cstr domain 0 ++ ascii "\n"

/-- How a call of `parse` ends. -/
inductive Result
  /-- The statement `return "YES";`. -/
  | YES
  /-- The statement `return "NO";`. -/
  | NO
  /-- The statement `return;` of the null branch: the function returns
  without a value. -/
  | noValue
  /-- The call `strcpy(buffer, token)` stored past the end of `buffer`: the
  behaviour of the program is undefined from there on. -/
  | undefined
  deriving DecidableEq, Repr

/-- What a call of `parse` leaves behind. -/
structure Run where
  /-- How the call ended. -/
  result : Result
  /-- Bytes sent to standard output during the call. -/
  out : List Nat
  /-- The memory block of the argument string after the call. -/
  mem : List Nat
  /-- The saved pointer of `strtok` after the call. -/
  save : Option Nat
  /-- Number of calls of `strtok`. -/
  fetches : Nat
  /-- The token handed to `strcpy` as its source, when the call was reached. -/
  token : Option (List Nat)
  /-- The bytes stored through `buffer`, from `buffer[0]` upwards. -/
  buffer : List Nat
  deriving DecidableEq, Repr

/-- Number of bytes a call of `parse` stored through `buffer`. -/
def Run.written (r : Run) : Nat := r.buffer.length

/-- The extracted domain: the C string held by `buffer`. -/
def Run.domain (r : Run) : List Nat := cstr r.buffer 0

/-- The loop `for (substr = str; ; substr = NULL) { ... }` of `parse` together
with the `return "NO";` behind it.  `substr` is the loop variable, `mem` and
`save` the memory block and the state of `strtok`, and `n` counts the calls of
`strtok` made so far.  One unit of fuel is one iteration. -/
def parseLoop : Nat → Option Nat → List Nat → Option Nat → Nat → Option Run
  | 0, _, _, _, _ => none
  | fuel + 1, substr, mem, save, n =>
    match strtok mem save substr [AT] with
    | (none, mem1, save1) =>
      -- token == NULL: break, then return "NO"
      some { result := Result.NO, out := [], mem := mem1, save := save1,
             fetches := n + 1, token := none, buffer := [] }
    | (some t, mem1, save1) =>
      if substr = none then
        -- strcpy(buffer, token); print_domain(buffer); return "YES"
        -- The code makes no length check.  The distinction below is the one
        -- the C language makes: a copy that fits is defined behaviour, a
        -- copy that runs past buffer[1023] is not.
        let tok := cstr mem1 t
        let buf := strcpy tok
        if buf.length ≤ BUFSIZE then
          some { result := Result.YES, out := print_domain buf, mem := mem1,
                 save := save1, fetches := n + 1, token := some tok, buffer := buf }
        else
          some { result := Result.undefined, out := [], mem := mem1,
                 save := save1, fetches := n + 1, token := some tok, buffer := buf }
      else parseLoop fuel none mem1 save1 (n + 1)

/-- Source `parse`.  The argument is a null pointer (`none`) or points to the
first byte of a block holding the bytes `s` and a terminator.  `save` is the
saved pointer `strtok` holds when the call starts. -/
def parse (fuel : Nat) (save : Option Nat) (str : Option (List Nat)) : Option Run :=
  match str with
  | none =>
    some { result := Result.noValue, out := [], mem := [], save := save,
           fetches := 0, token := none, buffer := [] }
  | some s => parseLoop fuel (some 0) (s ++ [NUL]) save 0

/-- Library `puts(s)`: the string and a newline. -/
def puts (s : List Nat) : List Nat := s ++ ascii "\n"

/-- Library `strdup(s)`: a pointer to a fresh copy of the string.  The
allocation is taken to succeed. -/
def strdup (s : List Nat) : Option (List Nat) := some s

/-- What a run of the program leaves behind. -/
structure Proc where
  /-- The value `main` returns; `none` when the behaviour is undefined. -/
  status : Option Nat
  /-- Bytes sent to standard output. -/
  out : List Nat
  deriving DecidableEq, Repr

/-- Source `main`.  `argv` is the argument vector, `argc` its length.  The
saved pointer of `strtok` is null at program start. -/
def main (fuel : Nat) (argv : List (List Nat)) : Option Proc :=
  if argv.length < 2 then
    some { status := some 1, out := puts (ascii "./getdomain <email_address>") }
  else
    match parse fuel none (strdup (argv.getD 1 [])) with
    | none => none
    | some r =>
      match r.result with
      | Result.YES =>
        some { status := some 0,
               out := r.out ++ (ascii "Domain is valid? " ++ ascii "YES" ++ ascii "\n") }
      | Result.NO =>
        some { status := some 0,
               out := r.out ++ (ascii "Domain is valid? " ++ ascii "NO" ++ ascii "\n") }
      | Result.noValue => some { status := none, out := r.out }
      | Result.undefined => some { status := none, out := r.out }

/-- The outcome of `parse` once `strtok` has handed out the second token. -/
def copyRun (mem : List Nat) (save : Option Nat) (n : Nat) (tok : List Nat) : Run :=
  if (strcpy tok).length ≤ BUFSIZE then
    { result := Result.YES, out := print_domain (strcpy tok), mem := mem,
      save := save, fetches := n, token := some tok, buffer := strcpy tok }
  else
    { result := Result.undefined, out := [], mem := mem,
      save := save, fetches := n, token := some tok, buffer := strcpy tok }

/-- The line `main` prints for the result `"NO"`. -/
def lineNO : List Nat := ascii "Domain is valid? NO\n"

/-- The line `main` prints for the result `"YES"`. -/
def lineYES : List Nat := ascii "Domain is valid? YES\n"

/-- A byte of the argument block after a call of `parse`, against the byte
before the call: it is unchanged, or it was an `'@'` and `strtok` has
overwritten it by `NUL`. -/
def Blanked (before after : Nat) : Prop := after = before ∨ (before = AT ∧ after = NUL)

/-- Reference, in the words of the specification: the non-empty maximal `'@'`
free runs of `s`, that is, `s` split on `'@'` with the empty pieces dropped. -/
def refTokens (s : List Nat) : List (List Nat) :=
  (s.splitOn AT).filter (fun piece => !piece.isEmpty)

/-- Reference, in the words of the specification: split on `'@'`, drop the empty
pieces, take the second. -/
def refDomain (s : List Nat) : Option (List Nat) :=
  match refTokens s with
  | _ :: t :: _ => some t
  | _ => none

/-! ## Memory and scanning lemmas -/

theorem drop_front (front rest : List Nat) : (front ++ rest).drop front.length = rest := by
  simp

theorem load_front (front : List Nat) (x : Nat) (post : List Nat) :
    load (front ++ x :: post) front.length = x := by
  unfold load
  induction front with
  | nil => rfl
  | cons y ys ih => simpa using ih

theorem store_front (front : List Nat) (x v : Nat) (post : List Nat) :
    store (front ++ x :: post) front.length v = front ++ v :: post := by
  unfold store
  simp

/-- A run of `'@'` in front of a byte that is no `'@'` is what `strspn`
skips. -/
theorem strspn_front (front ats : List Nat) (x : Nat) (post : List Nat)
    (hats : ∀ c ∈ ats, c = AT) (hx : x ≠ AT) :
    strspn (front ++ (ats ++ x :: post)) front.length [AT] = ats.length := by
  unfold strspn
  rw [drop_front, List.takeWhile_append_of_pos, List.takeWhile_cons_of_neg]
  · simp
  · simp [hx]
  · intro c hc
    simp [hats c hc, AT, NUL]

/-- A run free of `'@'` and `NUL` in front of an `'@'` or a `NUL` is what
`strcspn` spans. -/
theorem strcspn_front (front tok : List Nat) (x : Nat) (post : List Nat)
    (htok : ∀ c ∈ tok, c ≠ AT ∧ c ≠ NUL) (hx : x = AT ∨ x = NUL) :
    strcspn (front ++ (tok ++ x :: post)) front.length [AT] = tok.length := by
  unfold strcspn
  rw [drop_front, List.takeWhile_append_of_pos, List.takeWhile_cons_of_neg]
  · simp
  · rcases hx with h | h <;> simp [h]
  · intro c hc
    simp [(htok c hc).1, (htok c hc).2]

/-- The C string at the start of a `NUL` free run that a `NUL` follows. -/
theorem cstr_front (front tok post : List Nat) (htok : ∀ c ∈ tok, c ≠ NUL) :
    cstr (front ++ (tok ++ NUL :: post)) front.length = tok := by
  unfold cstr
  rw [drop_front, List.takeWhile_append_of_pos, List.takeWhile_cons_of_neg]
  · simp
  · simp
  · intro c hc
    simp [htok c hc]

theorem cstr_strcpy (tok : List Nat) (htok : ∀ c ∈ tok, c ≠ NUL) :
    cstr (strcpy tok) 0 = tok := by
  exact cstr_front [] tok [] htok

/-! ## The three ways a call of `strtok` goes -/

/-- Only delimiters are left in front of the terminator: no token. -/
theorem strtok_none (front ats post : List Nat) (save s : Option Nat)
    (hp : s.orElse (fun _ => save) = some front.length)
    (hats : ∀ c ∈ ats, c = AT) :
    strtok (front ++ (ats ++ NUL :: post)) save s [AT]
      = (none, front ++ (ats ++ NUL :: post), some (front.length + ats.length)) := by
  unfold strtok
  rw [hp]
  simp only
  rw [strspn_front front ats NUL post hats (by decide)]
  have h : load (front ++ (ats ++ NUL :: post)) (front.length + ats.length) = NUL := by
    have := load_front (front ++ ats) NUL post
    simpa [List.append_assoc] using this
  simp [h]

/-- The token runs up to the terminator of the string. -/
theorem strtok_last (front ats tok post : List Nat) (save s : Option Nat)
    (hp : s.orElse (fun _ => save) = some front.length)
    (hats : ∀ c ∈ ats, c = AT) (hne : tok ≠ [])
    (htok : ∀ c ∈ tok, c ≠ AT ∧ c ≠ NUL) :
    strtok (front ++ (ats ++ (tok ++ NUL :: post))) save s [AT]
      = (some (front.length + ats.length), front ++ (ats ++ (tok ++ NUL :: post)),
         some (front.length + ats.length + tok.length)) := by
  obtain ⟨t, ts, rfl⟩ := List.exists_cons_of_ne_nil hne
  have ht := htok t (by simp)
  unfold strtok
  rw [hp]
  simp only
  have h1 : strspn (front ++ (ats ++ (t :: ts ++ NUL :: post))) front.length [AT]
      = ats.length := by
    have := strspn_front front ats t (ts ++ NUL :: post) hats ht.1
    simpa using this
  rw [h1]
  have h2 : load (front ++ (ats ++ (t :: ts ++ NUL :: post))) (front.length + ats.length)
      = t := by
    have := load_front (front ++ ats) t (ts ++ NUL :: post)
    simpa [List.append_assoc] using this
  have h3 : strcspn (front ++ (ats ++ (t :: ts ++ NUL :: post)))
      (front.length + ats.length) [AT] = (t :: ts).length := by
    have := strcspn_front (front ++ ats) (t :: ts) NUL post htok (Or.inr rfl)
    simpa [List.append_assoc] using this
  have h4 : load (front ++ (ats ++ (t :: ts ++ NUL :: post)))
      (front.length + ats.length + (t :: ts).length) = NUL := by
    have := load_front (front ++ ats ++ (t :: ts)) NUL post
    simpa [List.append_assoc, Nat.add_assoc] using this
  rw [h2, if_neg ht.2, h3, h4, if_pos rfl]

/-- The token runs up to an `'@'`, which is overwritten by `NUL`. -/
theorem strtok_cut (front ats tok post : List Nat) (save s : Option Nat)
    (hp : s.orElse (fun _ => save) = some front.length)
    (hats : ∀ c ∈ ats, c = AT) (hne : tok ≠ [])
    (htok : ∀ c ∈ tok, c ≠ AT ∧ c ≠ NUL) :
    strtok (front ++ (ats ++ (tok ++ AT :: post))) save s [AT]
      = (some (front.length + ats.length), front ++ (ats ++ (tok ++ NUL :: post)),
         some (front.length + ats.length + tok.length + 1)) := by
  obtain ⟨t, ts, rfl⟩ := List.exists_cons_of_ne_nil hne
  have ht := htok t (by simp)
  unfold strtok
  rw [hp]
  simp only
  have h1 : strspn (front ++ (ats ++ (t :: ts ++ AT :: post))) front.length [AT]
      = ats.length := by
    have := strspn_front front ats t (ts ++ AT :: post) hats ht.1
    simpa using this
  rw [h1]
  have h2 : load (front ++ (ats ++ (t :: ts ++ AT :: post))) (front.length + ats.length)
      = t := by
    have := load_front (front ++ ats) t (ts ++ AT :: post)
    simpa [List.append_assoc] using this
  have h3 : strcspn (front ++ (ats ++ (t :: ts ++ AT :: post)))
      (front.length + ats.length) [AT] = (t :: ts).length := by
    have := strcspn_front (front ++ ats) (t :: ts) AT post htok (Or.inl rfl)
    simpa [List.append_assoc] using this
  have h4 : load (front ++ (ats ++ (t :: ts ++ AT :: post)))
      (front.length + ats.length + (t :: ts).length) = AT := by
    have := load_front (front ++ ats ++ (t :: ts)) AT post
    simpa [List.append_assoc, Nat.add_assoc] using this
  have h5 : store (front ++ (ats ++ (t :: ts ++ AT :: post)))
      (front.length + ats.length + (t :: ts).length) NUL
      = front ++ (ats ++ (t :: ts ++ NUL :: post)) := by
    have := store_front (front ++ ats ++ (t :: ts)) AT NUL post
    simpa [List.append_assoc, Nat.add_assoc] using this
  rw [h2, if_neg ht.2, h3, h4, if_neg (by decide), h5]

/-! ## The ways the loop of `parse` goes -/

/-- No token at all: the first call of `strtok` returns a null pointer. -/
theorem parseLoop_no_token (fuel : Nat) (ats post : List Nat) (save : Option Nat) (n : Nat)
    (hats : ∀ c ∈ ats, c = AT) :
    parseLoop (fuel + 1) (some 0) (ats ++ NUL :: post) save n
      = some { result := Result.NO, out := [], mem := ats ++ NUL :: post,
               save := some ats.length, fetches := n + 1, token := none, buffer := [] } := by
  have h := strtok_none [] ats post save (some 0) rfl hats
  simp only [List.nil_append, List.length_nil, Nat.zero_add] at h
  simp only [parseLoop, h]

/-- One token only, followed by the terminator: the second call of `strtok`
returns a null pointer. -/
theorem parseLoop_one_token (fuel : Nat) (ats0 a post : List Nat) (save : Option Nat)
    (n : Nat) (hats0 : ∀ c ∈ ats0, c = AT) (hne : a ≠ [])
    (ha : ∀ c ∈ a, c ≠ AT ∧ c ≠ NUL) :
    parseLoop (fuel + 2) (some 0) (ats0 ++ (a ++ NUL :: post)) save n
      = some { result := Result.NO, out := [], mem := ats0 ++ (a ++ NUL :: post),
               save := some (ats0.length + a.length), fetches := n + 2,
               token := none, buffer := [] } := by
  have h1 := strtok_last [] ats0 a post save (some 0) rfl hats0 hne ha
  simp only [List.nil_append, List.length_nil, Nat.zero_add] at h1
  have h2 := strtok_none (ats0 ++ a) [] post (some (ats0.length + a.length)) none
    (by simp) (by simp)
  simp only [List.nil_append, List.append_assoc, List.length_append, List.length_nil,
    Nat.add_zero] at h2
  rw [parseLoop, h1]
  simp only [reduceCtorEq, if_false]
  rw [parseLoop, h2]

/-- One token only, followed by a run of `'@'`: the second call of `strtok`
returns a null pointer. -/
theorem parseLoop_one_token_cut (fuel : Nat) (ats0 a ats post : List Nat)
    (save : Option Nat) (n : Nat) (hats0 : ∀ c ∈ ats0, c = AT) (hne : a ≠ [])
    (ha : ∀ c ∈ a, c ≠ AT ∧ c ≠ NUL) (hats : ∀ c ∈ ats, c = AT) :
    parseLoop (fuel + 2) (some 0) (ats0 ++ (a ++ AT :: (ats ++ NUL :: post))) save n
      = some { result := Result.NO, out := [],
               mem := ats0 ++ (a ++ NUL :: (ats ++ NUL :: post)),
               save := some (ats0.length + a.length + 1 + ats.length), fetches := n + 2,
               token := none, buffer := [] } := by
  have h1 := strtok_cut [] ats0 a (ats ++ NUL :: post) save (some 0) rfl hats0 hne ha
  simp only [List.nil_append, List.length_nil, Nat.zero_add] at h1
  have h2 := strtok_none (ats0 ++ (a ++ [NUL])) ats post
    (some (ats0.length + a.length + 1)) none (by simp [Nat.add_assoc]) hats
  simp only [List.append_assoc, List.singleton_append, List.length_append,
    List.length_cons, List.length_nil, Nat.zero_add, ← Nat.add_assoc] at h2
  rw [parseLoop, h1]
  simp only [reduceCtorEq, if_false]
  rw [parseLoop, h2]

/-- Two tokens: the second call of `strtok` hands out the token `b`, which is
followed by the terminator or by an `'@'`; the copy step is reached with
exactly `b`. -/
theorem parseLoop_two_tokens (fuel : Nat) (ats0 a ats b : List Nat) (x : Nat)
    (post : List Nat) (save : Option Nat) (n : Nat)
    (hats0 : ∀ c ∈ ats0, c = AT) (hnea : a ≠ []) (ha : ∀ c ∈ a, c ≠ AT ∧ c ≠ NUL)
    (hats : ∀ c ∈ ats, c = AT) (hneb : b ≠ []) (hb : ∀ c ∈ b, c ≠ AT ∧ c ≠ NUL)
    (hx : x = AT ∨ x = NUL) :
    parseLoop (fuel + 2) (some 0)
        (ats0 ++ (a ++ AT :: (ats ++ (b ++ x :: post)))) save n
      = some (copyRun (ats0 ++ (a ++ NUL :: (ats ++ (b ++ NUL :: post))))
          (some (ats0.length + a.length + 1 + ats.length + b.length
            + (if x = AT then 1 else 0))) (n + 2) b) := by
  have h1 := strtok_cut [] ats0 a (ats ++ (b ++ x :: post)) save (some 0) rfl hats0 hnea ha
  simp only [List.nil_append, List.length_nil, Nat.zero_add] at h1
  have hc : cstr (ats0 ++ (a ++ NUL :: (ats ++ (b ++ NUL :: post))))
      (ats0.length + a.length + 1 + ats.length) = b := by
    have h := cstr_front (ats0 ++ (a ++ [NUL]) ++ ats) b post (fun c hc => (hb c hc).2)
    have e1 : (ats0 ++ (a ++ [NUL]) ++ ats) ++ (b ++ NUL :: post)
        = ats0 ++ (a ++ NUL :: (ats ++ (b ++ NUL :: post))) := by simp
    have e2 : (ats0 ++ (a ++ [NUL]) ++ ats).length
        = ats0.length + a.length + 1 + ats.length := by
      simp only [List.length_append, List.length_cons, List.length_nil]
      omega
    rw [e1, e2] at h
    exact h
  rcases hx with rfl | rfl
  · have h2 := strtok_cut (ats0 ++ (a ++ [NUL])) ats b post
      (some (ats0.length + a.length + 1)) none (by simp [Nat.add_assoc]) hats hneb hb
    simp only [List.append_assoc, List.singleton_append, List.length_append,
      List.length_cons, List.length_nil, Nat.zero_add, ← Nat.add_assoc] at h2
    rw [parseLoop, h1]
    simp only [reduceCtorEq, if_false]
    rw [parseLoop, h2]
    by_cases hlen : (strcpy b).length ≤ BUFSIZE <;> simp [copyRun, hc, hlen]
  · have h2 := strtok_last (ats0 ++ (a ++ [NUL])) ats b post
      (some (ats0.length + a.length + 1)) none (by simp [Nat.add_assoc]) hats hneb hb
    simp only [List.append_assoc, List.singleton_append, List.length_append,
      List.length_cons, List.length_nil, Nat.zero_add, ← Nat.add_assoc] at h2
    rw [parseLoop, h1]
    simp only [reduceCtorEq, if_false]
    rw [parseLoop, h2]
    have hne : ¬ (NUL = AT) := by decide
    by_cases hlen : (strcpy b).length ≤ BUFSIZE <;> simp [copyRun, hc, hlen, hne]

/-! ## Shape of the argument string -/

theorem plain_of_not_mem (a : List Nat) (h1 : AT ∉ a) (h0 : NUL ∉ a) :
    ∀ c ∈ a, c ≠ AT ∧ c ≠ NUL := by
  intro c hc
  exact ⟨fun e => h1 (e ▸ hc), fun e => h0 (e ▸ hc)⟩

/-- The block of a string: a `NUL` free run, then a `NUL`.  The run is the
C string the block holds. -/
theorem block_split (s : List Nat) :
    ∃ pre post, s ++ [NUL] = pre ++ NUL :: post ∧ (∀ c ∈ pre, c ≠ NUL) ∧ (∀ c ∈ pre, c ∈ s) := by
  induction s with
  | nil => exact ⟨[], [], rfl, by simp, by simp⟩
  | cons x xs ih =>
    obtain ⟨pre, post, h, h0, hs⟩ := ih
    by_cases hx : x = NUL
    · exact ⟨[], xs ++ [NUL], by simp [hx], by simp, by simp⟩
    · refine ⟨x :: pre, post, by simp [h], ?_, ?_⟩
      · intro c hc
        rcases List.mem_cons.1 hc with rfl | hc
        · exact hx
        · exact h0 c hc
      · intro c hc
        rcases List.mem_cons.1 hc with rfl | hc
        · simp
        · exact List.mem_cons_of_mem _ (hs c hc)

/-- The loop never needs a third iteration: with two units of fuel it ends,
after at most two calls of `strtok`, in one of its three exits. -/
theorem parseLoop_exits (fuel p : Nat) (mem : List Nat) (save : Option Nat) (n : Nat) :
    ∃ r, parseLoop (fuel + 2) (some p) mem save n = some r ∧ r.fetches ≤ n + 2 ∧
      ((r.result = Result.NO ∧ r.out = [] ∧ r.buffer = []) ∨
       (r.result = Result.YES ∧ r.out = print_domain r.buffer ∧ r.written ≤ BUFSIZE) ∨
       (r.result = Result.undefined ∧ r.out = [] ∧ BUFSIZE < r.written)) := by
  rw [parseLoop]
  rcases strtok mem save (some p) [AT] with ⟨_ | t, mem1, save1⟩
  · exact ⟨_, rfl, by simp, Or.inl ⟨rfl, rfl, rfl⟩⟩
  · simp only [reduceCtorEq, if_false]
    rw [parseLoop]
    rcases strtok mem1 save1 none [AT] with ⟨_ | t2, mem2, save2⟩
    · exact ⟨_, rfl, by simp, Or.inl ⟨rfl, rfl, rfl⟩⟩
    · simp only [if_true]
      by_cases hlen : (strcpy (cstr mem2 t2)).length ≤ BUFSIZE
      · rw [if_pos hlen]
        exact ⟨_, rfl, by simp, Or.inr (Or.inl ⟨rfl, rfl, hlen⟩)⟩
      · rw [if_neg hlen]
        exact ⟨_, rfl, by simp, Or.inr (Or.inr ⟨rfl, rfl, Nat.lt_of_not_le hlen⟩)⟩

/-- Fuel beyond two units changes nothing. -/
theorem parseLoop_fuel (fuel p : Nat) (mem : List Nat) (save : Option Nat) (n : Nat) :
    parseLoop (fuel + 2) (some p) mem save n = parseLoop 2 (some p) mem save n := by
  rw [parseLoop, parseLoop]
  rcases strtok mem save (some p) [AT] with ⟨_ | t, mem1, save1⟩
  · rfl
  · simp only [reduceCtorEq, if_false]
    rw [parseLoop, parseLoop]
    rcases strtok mem1 save1 none [AT] with ⟨_ | t2, mem2, save2⟩
    · rfl
    · simp only [if_true]

/-- A second token that does not fit: the copy step is reached with the whole
token and `strcpy` stores past the end of `buffer`. -/
theorem long_token_run (k : Nat) (a b : List Nat) (save : Option Nat) (hnea : a ≠ [])
    (ha : ∀ c ∈ a, c ≠ AT ∧ c ≠ NUL) (hb : ∀ c ∈ b, c ≠ AT ∧ c ≠ NUL)
    (hlen : BUFSIZE ≤ b.length) :
    parse (k + 2) save (some (a ++ AT :: b))
      = some { result := Result.undefined, out := [], mem := a ++ NUL :: (b ++ [NUL]),
               save := some (a.length + 1 + b.length), fetches := 2, token := some b,
               buffer := strcpy b } := by
  have hneb : b ≠ [] := by
    intro h
    rw [h] at hlen
    exact absurd hlen (by decide)
  have e := parseLoop_two_tokens k [] a [] b NUL [] save 0 (by simp) hnea ha (by simp)
    hneb hb (Or.inr rfl)
  simp only [List.nil_append] at e
  have hshape : (a ++ AT :: b) ++ [NUL] = a ++ AT :: (b ++ [NUL]) := by simp
  have hfit : ¬ (strcpy b).length ≤ BUFSIZE := by
    simp only [strcpy, List.length_append, List.length_cons, List.length_nil]
    omega
  have hne : ¬ (NUL = AT) := by decide
  simp only [parse]
  rw [hshape, e]
  simp [copyRun, hfit, hne]

theorem plain_replicate (n x : Nat) (h1 : x ≠ AT) (h0 : x ≠ NUL) :
    ∀ c ∈ List.replicate n x, c ≠ AT ∧ c ≠ NUL := by
  intro c hc
  rw [List.eq_of_mem_replicate hc]
  exact ⟨h1, h0⟩

theorem not_mem_replicate (n x y : Nat) (h : y ≠ x) : y ∉ List.replicate n x :=
  fun hm => h (List.eq_of_mem_replicate hm)

theorem length_replicate_ge (n x : Nat) (h : BUFSIZE ≤ n) :
    BUFSIZE ≤ (List.replicate n x).length := by
  rw [List.length_replicate]
  exact h

/-! ## Claims about `parse` -/

/-- C1: for every input string without `'@'` (the empty string included),
`parse` returns `"NO"`, sends nothing to standard output (so no
`Domain is ...` line) and never reaches the copy step. -/
theorem parse_without_at (s : List Nat) (hs : AT ∉ s) (fuel : Nat) (hf : 2 ≤ fuel)
    (save : Option Nat) :
    ∃ r, parse fuel save (some s) = some r ∧ r.result = Result.NO ∧ r.out = [] ∧
      r.token = none := by
  obtain ⟨k, rfl⟩ : ∃ k, fuel = k + 2 := ⟨fuel - 2, by omega⟩
  obtain ⟨pre, post, h, h0, hsub⟩ := block_split s
  simp only [parse]
  rw [h]
  by_cases hpre : pre = []
  · subst hpre
    have e := parseLoop_no_token (k + 1) [] post save 0 (by simp)
    simp only [List.nil_append] at e ⊢
    exact ⟨_, e, rfl, rfl, rfl⟩
  · have hplain : ∀ c ∈ pre, c ≠ AT ∧ c ≠ NUL := fun c hc =>
      ⟨fun e => hs (e ▸ hsub c hc), h0 c hc⟩
    have e := parseLoop_one_token k [] pre post save 0 (by simp) hpre hplain
    simp only [List.nil_append] at e
    exact ⟨_, e, rfl, rfl, rfl⟩

/-- Instance of `parse_without_at` at the input `"no-at-sign"`. -/
theorem parse_without_at_witness :
    AT ∉ ascii "no-at-sign" ∧
    ∃ r, parse 2 none (some (ascii "no-at-sign")) = some r ∧ r.result = Result.NO ∧
      r.out = [] ∧ r.token = none :=
  ⟨by decide, parse_without_at (ascii "no-at-sign") (by decide) 2 (by decide) none⟩

/-- C2, as stated, fails: with an empty part in front of the `'@'`
(`"@example.com"`) and with an empty part behind it (`"alice@"`), `parse`
returns `"NO"` and prints nothing. -/
theorem not_found_with_empty_part :
    ((parse 2 none (some ([] ++ AT :: ascii "example.com"))).map Run.result = some Result.NO ∧
      (parse 2 none (some ([] ++ AT :: ascii "example.com"))).map Run.out = some []) ∧
    ((parse 2 none (some (ascii "alice" ++ AT :: []))).map Run.result = some Result.NO ∧
      (parse 2 none (some (ascii "alice" ++ AT :: []))).map Run.out = some []) := by
  decide

/-- C2 (amended): for all non-empty strings `a` and `b` without `'@'`, `b`
shorter than the 1024 byte buffer, `parse (a ++ "@" ++ b)` returns `"YES"`
and the extracted domain is exactly `b`. -/
theorem parse_one_at (a b : List Nat) (hnea : a ≠ []) (hneb : b ≠ [])
    (ha : AT ∉ a) (ha0 : NUL ∉ a) (hb : AT ∉ b) (hb0 : NUL ∉ b)
    (hlen : b.length < BUFSIZE) (fuel : Nat) (hf : 2 ≤ fuel) (save : Option Nat) :
    ∃ r, parse fuel save (some (a ++ AT :: b)) = some r ∧ r.result = Result.YES ∧
      r.domain = b := by
  obtain ⟨k, rfl⟩ : ∃ k, fuel = k + 2 := ⟨fuel - 2, by omega⟩
  have e := parseLoop_two_tokens k [] a [] b NUL [] save 0 (by simp) hnea
    (plain_of_not_mem a ha ha0) (by simp) hneb (plain_of_not_mem b hb hb0) (Or.inr rfl)
  simp only [List.nil_append] at e
  have hshape : (a ++ AT :: b) ++ [NUL] = a ++ AT :: (b ++ [NUL]) := by simp
  have hfit : (strcpy b).length ≤ BUFSIZE := by
    simp only [strcpy, List.length_append, List.length_cons, List.length_nil]
    omega
  simp only [parse]
  rw [hshape, e]
  refine ⟨_, rfl, ?_, ?_⟩
  · simp [copyRun, hfit]
  · simp only [copyRun, if_pos hfit, Run.domain]
    exact cstr_strcpy b (fun c hc e0 => hb0 (e0 ▸ hc))

/-- Instance of `parse_one_at` at the input `"alice@example.com"`. -/
theorem parse_one_at_witness :
    ∃ r, parse 2 none (some (ascii "alice" ++ AT :: ascii "example.com")) = some r ∧
      r.result = Result.YES ∧ r.domain = ascii "example.com" :=
  parse_one_at (ascii "alice") (ascii "example.com") (by decide) (by decide) (by decide)
    (by decide) (by decide) (by decide) (by decide) 2 (by decide) none

/-- C3, as stated, fails: with an empty first segment (`"@b@c"`) and with an
empty second segment (`"a@@c"`), `parse` returns `"YES"` with the domain `c`,
which is not the segment between the first and the second `'@'`. -/
theorem later_segment_with_empty_part :
    ((parse 2 none (some ([] ++ AT :: (ascii "b" ++ AT :: ascii "c")))).map Run.result
        = some Result.YES ∧
      (parse 2 none (some ([] ++ AT :: (ascii "b" ++ AT :: ascii "c")))).map Run.domain
        = some (ascii "c") ∧
      ascii "c" ≠ ascii "b") ∧
    ((parse 2 none (some (ascii "a" ++ AT :: ([] ++ AT :: ascii "c")))).map Run.result
        = some Result.YES ∧
      (parse 2 none (some (ascii "a" ++ AT :: ([] ++ AT :: ascii "c")))).map Run.domain
        = some (ascii "c") ∧
      ascii "c" ≠ []) := by
  decide

/-- C3 (amended): for all non-empty strings `a` and `b` without `'@'`, `b`
shorter than the 1024 byte buffer, and every string `c`,
`parse (a ++ "@" ++ b ++ "@" ++ c)` returns `"YES"` and the extracted domain
is exactly `b`, the segment between the first and the second `'@'`. -/
theorem parse_two_at (a b c : List Nat) (hnea : a ≠ []) (hneb : b ≠ [])
    (ha : AT ∉ a) (ha0 : NUL ∉ a) (hb : AT ∉ b) (hb0 : NUL ∉ b)
    (hlen : b.length < BUFSIZE) (fuel : Nat) (hf : 2 ≤ fuel) (save : Option Nat) :
    ∃ r, parse fuel save (some (a ++ AT :: (b ++ AT :: c))) = some r ∧
      r.result = Result.YES ∧ r.domain = b := by
  obtain ⟨k, rfl⟩ : ∃ k, fuel = k + 2 := ⟨fuel - 2, by omega⟩
  have e := parseLoop_two_tokens k [] a [] b AT (c ++ [NUL]) save 0 (by simp) hnea
    (plain_of_not_mem a ha ha0) (by simp) hneb (plain_of_not_mem b hb hb0) (Or.inl rfl)
  simp only [List.nil_append] at e
  have hshape : (a ++ AT :: (b ++ AT :: c)) ++ [NUL] = a ++ AT :: (b ++ AT :: (c ++ [NUL])) := by
    simp
  have hfit : (strcpy b).length ≤ BUFSIZE := by
    simp only [strcpy, List.length_append, List.length_cons, List.length_nil]
    omega
  simp only [parse]
  rw [hshape, e]
  refine ⟨_, rfl, ?_, ?_⟩
  · simp [copyRun, hfit]
  · simp only [copyRun, if_pos hfit, Run.domain]
    exact cstr_strcpy b (fun c hc e0 => hb0 (e0 ▸ hc))

/-- Instance of `parse_two_at` at the input `"a@b@c"`. -/
theorem parse_two_at_witness :
    ∃ r, parse 2 none (some (ascii "a" ++ AT :: (ascii "b" ++ AT :: ascii "c"))) = some r ∧
      r.result = Result.YES ∧ r.domain = ascii "b" :=
  parse_two_at (ascii "a") (ascii "b") (ascii "c") (by decide) (by decide) (by decide)
    (by decide) (by decide) (by decide) (by decide) 2 (by decide) none

/-- C4 fails on the code: for a token of 1024 bytes `'x'` behind `"a@"` (the
smallest one the claim is about) and for a token of 4096 bytes, `parse` makes
no length check: after two calls of `strtok` it hands the whole token to
`strcpy`, which stores 1025 and 4097 bytes through the 1024 byte `buffer`.
The call does not end in a failure result: past the end of `buffer` the
behaviour is undefined. -/
theorem overflow_not_reported :
    ((parse 2 none (some (ascii "a@" ++ List.replicate 1024 120))).map Run.token
        = some (some (List.replicate 1024 120)) ∧
      (parse 2 none (some (ascii "a@" ++ List.replicate 1024 120))).map Run.fetches = some 2 ∧
      (parse 2 none (some (ascii "a@" ++ List.replicate 1024 120))).map Run.written
        = some 1025 ∧
      BUFSIZE < 1025 ∧
      (parse 2 none (some (ascii "a@" ++ List.replicate 1024 120))).map Run.result
        = some Result.undefined) ∧
    ((parse 2 none (some (ascii "a@" ++ List.replicate 4096 120))).map Run.token
        = some (some (List.replicate 4096 120)) ∧
      (parse 2 none (some (ascii "a@" ++ List.replicate 4096 120))).map Run.fetches = some 2 ∧
      (parse 2 none (some (ascii "a@" ++ List.replicate 4096 120))).map Run.written
        = some 4097 ∧
      BUFSIZE < 4097 ∧
      (parse 2 none (some (ascii "a@" ++ List.replicate 4096 120))).map Run.result
        = some Result.undefined) := by
  have e1 := long_token_run 0 [97] (List.replicate 1024 120) none (by simp)
    (by decide) (plain_replicate 1024 120 (by decide) (by decide))
    (length_replicate_ge 1024 120 (by decide))
  have e2 := long_token_run 0 [97] (List.replicate 4096 120) none (by simp)
    (by decide) (plain_replicate 4096 120 (by decide) (by decide))
    (length_replicate_ge 4096 120 (by decide))
  have h1 : ascii "a@" ++ List.replicate 1024 120 = [97] ++ AT :: List.replicate 1024 120 := by
    rfl
  have h2 : ascii "a@" ++ List.replicate 4096 120 = [97] ++ AT :: List.replicate 4096 120 := by
    rfl
  rw [h1, h2, e1, e2]
  simp only [Option.map_some', Run.written, strcpy, List.length_append,
    List.length_replicate, List.length_cons, List.length_nil]
  exact ⟨⟨trivial, trivial, trivial, by decide, trivial⟩,
    ⟨trivial, trivial, trivial, by decide, trivial⟩⟩

/-- C5 fails on the code: for the input `"user@"` followed by 2000 bytes `'A'`,
`parse` stores 2001 bytes through `buffer`, which holds 1024. -/
theorem parse_writes_past_buffer :
    (parse 2 none (some (ascii "user@" ++ List.replicate 2000 65))).map Run.written
      = some 2001 ∧ BUFSIZE < 2001 := by
  have e := long_token_run 0 (ascii "user") (List.replicate 2000 65) none (by decide)
    (by decide) (plain_replicate 2000 65 (by decide) (by decide)) (length_replicate_ge 2000 65 (by decide))
  have hin : ascii "user@" ++ List.replicate 2000 65
      = ascii "user" ++ AT :: List.replicate 2000 65 := by
    rfl
  rw [hin, e]
  simp only [Option.map_some', Run.written, strcpy, List.length_append,
    List.length_replicate, List.length_cons, List.length_nil]
  exact ⟨trivial, by decide⟩

/-- C6 fails on the code: for a null argument `parse` executes `return;`, so it
returns without a value and not with `"NO"`; it prints nothing and never calls
`strtok`. -/
theorem parse_null (fuel : Nat) (save : Option Nat) :
    ∃ r, parse fuel save none = some r ∧ r.result = Result.noValue ∧
      r.result ≠ Result.NO ∧ r.out = [] ∧ r.fetches = 0 :=
  ⟨_, rfl, rfl, by simp, rfl, rfl⟩

/-- C7, as stated, fails: for the input `"@"` the result of `parse` is `"NO"`,
not `"YES"`. -/
theorem not_found_for_only_at :
    (parse 2 none (some (ascii "@"))).map Run.result = some Result.NO ∧
    (parse 2 none (some (ascii "@"))).map Run.result ≠ some Result.YES := by
  decide

/-- C7 (amended): for the input `"@"`, `parse` returns `"NO"`: `strtok` skips
the delimiter, finds no token in its first call, and nothing is copied or
printed. -/
theorem parse_only_at (fuel : Nat) (hf : 1 ≤ fuel) (save : Option Nat) :
    ∃ r, parse fuel save (some [AT]) = some r ∧ r.result = Result.NO ∧ r.out = [] ∧
      r.token = none ∧ r.fetches = 1 := by
  obtain ⟨k, rfl⟩ : ∃ k, fuel = k + 1 := ⟨fuel - 1, by omega⟩
  have e := parseLoop_no_token k [AT] [] save 0 (by simp)
  exact ⟨_, e, rfl, rfl, rfl, rfl⟩

/-- Instance of `parse_only_at` with two units of fuel. -/
theorem parse_only_at_witness :
    ∃ r, parse 2 none (some [AT]) = some r ∧ r.result = Result.NO ∧ r.out = [] ∧
      r.token = none ∧ r.fetches = 1 :=
  parse_only_at 2 (by decide) none

/-- C8, as stated, fails: for the input `"user@"` the result of `parse` is
`"NO"`, not `"YES"`, and nothing is printed. -/
theorem not_found_for_trailing_at :
    (parse 2 none (some (ascii "user" ++ [AT]))).map Run.result = some Result.NO ∧
    (parse 2 none (some (ascii "user" ++ [AT]))).map Run.result ≠ some Result.YES ∧
    (parse 2 none (some (ascii "user" ++ [AT]))).map Run.out = some [] := by
  decide

/-- C8 (amended): for every non-empty string `a` without `'@'`,
`parse (a ++ "@")` returns `"NO"`: behind a trailing `'@'` `strtok` finds no
second token, and nothing is copied or printed. -/
theorem parse_trailing_at (a : List Nat) (hne : a ≠ []) (ha : AT ∉ a) (ha0 : NUL ∉ a)
    (fuel : Nat) (hf : 2 ≤ fuel) (save : Option Nat) :
    ∃ r, parse fuel save (some (a ++ [AT])) = some r ∧ r.result = Result.NO ∧ r.out = [] ∧
      r.token = none := by
  obtain ⟨k, rfl⟩ : ∃ k, fuel = k + 2 := ⟨fuel - 2, by omega⟩
  have e := parseLoop_one_token_cut k [] a [] [] save 0 (by simp) hne
    (plain_of_not_mem a ha ha0) (by simp)
  simp only [List.nil_append] at e
  have hshape : (a ++ [AT]) ++ [NUL] = a ++ AT :: [NUL] := by simp
  simp only [parse]
  rw [hshape, e]
  exact ⟨_, rfl, rfl, rfl, rfl⟩

/-- Instance of `parse_trailing_at` at the input `"user@"`. -/
theorem parse_trailing_at_witness :
    ∃ r, parse 2 none (some (ascii "user" ++ [AT])) = some r ∧ r.result = Result.NO ∧
      r.out = [] ∧ r.token = none :=
  parse_trailing_at (ascii "user") (by decide) (by decide) (by decide) 2 (by decide) none

/-! ## The program -/

/-- Without an argument `main` prints the usage line, returns 1 and does not
call `parse`, whatever the fuel. -/
theorem main_usage (fuel : Nat) (argv : List (List Nat)) (h : argv.length < 2) :
    main fuel argv = some { status := some 1, out := ascii "./getdomain <email_address>\n" } := by
  simp only [main, if_pos h]
  rfl

/-- With an argument, `main` is decided by the call of `parse` on it: status 0
and the line `NO`, or status 0 and the line `Domain is <domain>` followed by
the line `YES`, or, when `strcpy` stored past the end of `buffer`, no defined
status at all. -/
theorem main_cases (fuel : Nat) (argv : List (List Nat)) (h : 2 ≤ argv.length)
    (hf : 2 ≤ fuel) :
    ∃ r p, parse fuel none (some (argv.getD 1 [])) = some r ∧ main fuel argv = some p ∧
      ((r.result = Result.NO ∧ p.status = some 0 ∧ p.out = lineNO) ∨
       (r.result = Result.YES ∧ r.written ≤ BUFSIZE ∧ p.status = some 0 ∧
          p.out = ascii "Domain is " ++ r.domain ++ ascii "\n" ++ lineYES) ∨
       (r.result = Result.undefined ∧ BUFSIZE < r.written ∧ p.status = none)) := by
  obtain ⟨k, rfl⟩ : ∃ k, fuel = k + 2 := ⟨fuel - 2, by omega⟩
  obtain ⟨r, hr, -, hcases⟩ := parseLoop_exits k 0 (argv.getD 1 [] ++ [NUL]) none 0
  have hp : parse (k + 2) none (some (argv.getD 1 [])) = some r := hr
  have hlt : ¬ argv.length < 2 := by omega
  rcases hcases with ⟨h1, h2, -⟩ | ⟨h1, h2, h3⟩ | ⟨h1, -, h3⟩
  · have hm : main (k + 2) argv = some { status := some 0, out := r.out ++
        (ascii "Domain is valid? " ++ ascii "NO" ++ ascii "\n") } := by
      simp only [main, if_neg hlt, strdup, hp, h1]
    refine ⟨r, _, hp, hm, Or.inl ⟨h1, rfl, ?_⟩⟩
    simp only [h2]
    rfl
  · have hm : main (k + 2) argv = some { status := some 0, out := r.out ++
        (ascii "Domain is valid? " ++ ascii "YES" ++ ascii "\n") } := by
      simp only [main, if_neg hlt, strdup, hp, h1]
    refine ⟨r, _, hp, hm, Or.inr (Or.inl ⟨h1, h3, rfl, ?_⟩)⟩
    simp only [h2, print_domain, Run.domain, lineYES, List.append_assoc]
    rfl
  · have hm : main (k + 2) argv = some { status := none, out := r.out } := by
      simp only [main, if_neg hlt, strdup, hp, h1]
    exact ⟨r, _, hp, hm, Or.inr (Or.inr ⟨h1, h3, rfl⟩)⟩

/-- When the call of `parse` ends in undefined behaviour, so does `main`. -/
theorem main_undefined (fuel : Nat) (argv : List (List Nat)) (r : Run)
    (h : 2 ≤ argv.length) (hp : parse fuel none (some (argv.getD 1 [])) = some r)
    (hr : r.result = Result.undefined) :
    main fuel argv = some { status := none, out := r.out } := by
  have hlt : ¬ argv.length < 2 := by omega
  simp only [main, if_neg hlt, strdup, hp, hr]

/-- C9 fails on the code: for the argument `"a@"` followed by 2000 bytes `'A'`
the call `strcpy(buffer, token)` inside `parse` stores 2001 bytes through the
1024 byte `buffer`, and `main` has no defined return value: it does not
return 0, although an argument was supplied. -/
theorem main_status_long_domain :
    (main 2 [ascii "./getdomain", ascii "a@" ++ List.replicate 2000 65]).map Proc.status
      = some none ∧
    (main 2 [ascii "./getdomain", ascii "a@" ++ List.replicate 2000 65]).map Proc.status
      ≠ some (some 0) := by
  have e := long_token_run 0 [97] (List.replicate 2000 65) none (by simp)
    (by decide) (plain_replicate 2000 65 (by decide) (by decide))
    (length_replicate_ge 2000 65 (by decide))
  have hin : [ascii "./getdomain", ascii "a@" ++ List.replicate 2000 65].getD 1 []
      = [97] ++ AT :: List.replicate 2000 65 := rfl
  rw [← hin] at e
  have hm := main_undefined 2 [ascii "./getdomain", ascii "a@" ++ List.replicate 2000 65] _
    (Nat.le_refl 2) e rfl
  rw [hm]
  exact ⟨rfl, by decide⟩

/-- C10 fails on the code: for the argument `"bob@"` followed by 1500 bytes
`'x'` the call `strcpy(buffer, token)` inside `parse` stores 1501 bytes
through the 1024 byte `buffer`; the behaviour is undefined from there, and the
output the program is known to have produced is neither the line `NO` nor a
line `Domain is <d>` followed by the line `YES`. -/
theorem main_output_long_domain :
    ∃ p, main 2 [ascii "./getdomain", ascii "bob@" ++ List.replicate 1500 120] = some p ∧
      p.status = none ∧ p.out ≠ lineNO ∧
      ∀ d, p.out ≠ ascii "Domain is " ++ d ++ ascii "\n" ++ lineYES := by
  have e := long_token_run 0 (ascii "bob") (List.replicate 1500 120) none (by decide)
    (by decide) (plain_replicate 1500 120 (by decide) (by decide))
    (length_replicate_ge 1500 120 (by decide))
  have hin : [ascii "./getdomain", ascii "bob@" ++ List.replicate 1500 120].getD 1 []
      = ascii "bob" ++ AT :: List.replicate 1500 120 := rfl
  rw [← hin] at e
  have hm := main_undefined 2 [ascii "./getdomain", ascii "bob@" ++ List.replicate 1500 120] _
    (Nat.le_refl 2) e rfl
  refine ⟨_, hm, rfl, by decide, ?_⟩
  intro d hd
  have hlen := congrArg List.length hd
  simp [lineYES, ascii] at hlen

/-! ## Decomposition of a string into runs -/

/-- A string is a run of `'@'` followed by nothing or by a byte that is no
`'@'`. -/
theorem skip_ats (s : List Nat) :
    ∃ ats rest, s = ats ++ rest ∧ (∀ c ∈ ats, c = AT) ∧
      (rest = [] ∨ ∃ x xs, rest = x :: xs ∧ x ≠ AT) := by
  induction s with
  | nil => exact ⟨[], [], rfl, by simp, Or.inl rfl⟩
  | cons c cs ih =>
    by_cases hc : c = AT
    · obtain ⟨ats, rest, h, hats, hrest⟩ := ih
      refine ⟨c :: ats, rest, by simp [h], ?_, hrest⟩
      intro d hd
      rcases List.mem_cons.1 hd with rfl | hd
      · exact hc
      · exact hats d hd
    · exact ⟨[], c :: cs, rfl, by simp, Or.inr ⟨c, cs, rfl, hc⟩⟩

/-- A string is an `'@'` free run followed by nothing or by an `'@'`. -/
theorem take_run (s : List Nat) :
    ∃ a rest, s = a ++ rest ∧ (∀ c ∈ a, c ≠ AT) ∧ (rest = [] ∨ ∃ tl, rest = AT :: tl) := by
  induction s with
  | nil => exact ⟨[], [], rfl, by simp, Or.inl rfl⟩
  | cons c cs ih =>
    by_cases hc : c = AT
    · exact ⟨[], c :: cs, rfl, by simp, Or.inr ⟨cs, by rw [hc]⟩⟩
    · obtain ⟨a, rest, h, ha, hrest⟩ := ih
      refine ⟨c :: a, rest, by simp [h], ?_, hrest⟩
      intro d hd
      rcases List.mem_cons.1 hd with rfl | hd
      · exact hc
      · exact ha d hd

/-- A run of `'@'` may be moved over one more `'@'`. -/
theorem ats_shift (ats : List Nat) (hats : ∀ c ∈ ats, c = AT) : AT :: ats = ats ++ [AT] := by
  induction ats with
  | nil => rfl
  | cons c cs ih =>
    have hc : c = AT := hats c (by simp)
    have hcs : ∀ d ∈ cs, d = AT := fun d hd => hats d (List.mem_cons_of_mem _ hd)
    rw [hc, List.cons_append, ← ih hcs]

/-! ## The reference tokens of a decomposed string -/

theorem refTokens_nil : refTokens [] = [] := by
  decide

theorem refTokens_skip (ats rest : List Nat) (hats : ∀ c ∈ ats, c = AT) :
    refTokens (ats ++ rest) = refTokens rest := by
  induction ats with
  | nil => rfl
  | cons c cs ih =>
    have hc : c = AT := hats c (by simp)
    have hcs : ∀ d ∈ cs, d = AT := fun d hd => hats d (List.mem_cons_of_mem _ hd)
    have h := ih hcs
    unfold refTokens at h ⊢
    rw [hc, List.cons_append, List.splitOn, List.splitOnP_cons]
    simpa [List.splitOn] using h

theorem refTokens_single (a : List Nat) (hne : a ≠ []) (ha : ∀ c ∈ a, c ≠ AT) :
    refTokens a = [a] := by
  unfold refTokens
  rw [List.splitOn, List.splitOnP_eq_single]
  · cases a with
    | nil => exact absurd rfl hne
    | cons x xs => rfl
  · intro x hx
    simpa using ha x hx

theorem refTokens_run (a tl : List Nat) (hne : a ≠ []) (ha : ∀ c ∈ a, c ≠ AT) :
    refTokens (a ++ AT :: tl) = a :: refTokens tl := by
  unfold refTokens
  rw [List.splitOn, List.splitOnP_first]
  · cases a with
    | nil => exact absurd rfl hne
    | cons x xs => rfl
  · intro x hx
    simpa using ha x hx
  · simp

theorem refTokens_all_ats (s : List Nat) (h : ∀ c ∈ s, c = AT) : refTokens s = [] := by
  have e := refTokens_skip s [] h
  rw [List.append_nil, refTokens_nil] at e
  exact e

theorem refTokens_one (ats0 a ats : List Nat) (hats0 : ∀ c ∈ ats0, c = AT) (hne : a ≠ [])
    (ha : ∀ c ∈ a, c ≠ AT) (hats : ∀ c ∈ ats, c = AT) :
    refTokens (ats0 ++ (a ++ ats)) = [a] := by
  rw [refTokens_skip ats0 _ hats0]
  cases ats with
  | nil => rw [List.append_nil, refTokens_single a hne ha]
  | cons c cs =>
    have hc : c = AT := hats c (by simp)
    have hcs : ∀ d ∈ cs, d = AT := fun d hd => hats d (List.mem_cons_of_mem _ hd)
    rw [hc, refTokens_run a cs hne ha, refTokens_all_ats cs hcs]

theorem refTokens_two (ats0 a ats b tail : List Nat) (hats0 : ∀ c ∈ ats0, c = AT)
    (hnea : a ≠ []) (ha : ∀ c ∈ a, c ≠ AT) (hats : ∀ c ∈ ats, c = AT) (hneb : b ≠ [])
    (hb : ∀ c ∈ b, c ≠ AT) (htail : tail = [] ∨ ∃ c, tail = AT :: c) :
    ∃ more, refTokens (ats0 ++ (a ++ AT :: (ats ++ (b ++ tail)))) = a :: b :: more := by
  rw [refTokens_skip ats0 _ hats0, refTokens_run a _ hnea ha, refTokens_skip ats _ hats]
  rcases htail with rfl | ⟨c, rfl⟩
  · rw [List.append_nil, refTokens_single b hneb hb]
    exact ⟨[], rfl⟩
  · rw [refTokens_run b c hneb hb]
    exact ⟨_, rfl⟩

/-! ## What `strtok` leaves of the argument block -/

theorem blanked_same (l : List Nat) : List.Forall₂ Blanked l l :=
  List.forall₂_same.2 (fun _ _ => Or.inl rfl)

/-- One `'@'` overwritten. -/
theorem blanked_one (l1 l2 : List Nat) :
    List.Forall₂ Blanked (l1 ++ AT :: l2) (l1 ++ NUL :: l2) :=
  List.rel_append (blanked_same l1)
    (List.Forall₂.cons (Or.inr ⟨rfl, rfl⟩) (blanked_same l2))

/-- Two `'@'` overwritten. -/
theorem blanked_two (l1 l2 l3 : List Nat) :
    List.Forall₂ Blanked (l1 ++ AT :: (l2 ++ AT :: l3)) (l1 ++ NUL :: (l2 ++ NUL :: l3)) :=
  List.rel_append (blanked_same l1)
    (List.Forall₂.cons (Or.inr ⟨rfl, rfl⟩) (blanked_one l2 l3))

/-! ## The three shapes of an argument string -/

/-- Every C string has one of three shapes, and the shape decides the call of
`parse`: only `'@'` (no token, `"NO"` after one call of `strtok`); one `'@'`
free run between runs of `'@'` (one token, `"NO"` after two calls); or a
second `'@'` free run `b` (two tokens, the copy step is reached with `b`). -/
theorem parse_shape (s : List Nat) (h0 : NUL ∉ s) (k : Nat) (save : Option Nat) :
    (∃ sv, (∀ c ∈ s, c = AT) ∧
      parse (k + 2) save (some s)
        = some { result := Result.NO, out := [], mem := s ++ [NUL], save := sv,
                 fetches := 1, token := none, buffer := [] }) ∨
    (∃ ats0 a ats m sv, s = ats0 ++ (a ++ ats) ∧ (∀ c ∈ ats0, c = AT) ∧ a ≠ [] ∧
      (∀ c ∈ a, c ≠ AT) ∧ (∀ c ∈ ats, c = AT) ∧
      List.Forall₂ Blanked (s ++ [NUL]) m ∧ (ats = [] → m = s ++ [NUL]) ∧
      parse (k + 2) save (some s)
        = some { result := Result.NO, out := [], mem := m, save := sv,
                 fetches := 2, token := none, buffer := [] }) ∨
    (∃ ats0 a ats b tail m sv, s = ats0 ++ (a ++ AT :: (ats ++ (b ++ tail))) ∧
      (∀ c ∈ ats0, c = AT) ∧ a ≠ [] ∧ (∀ c ∈ a, c ≠ AT) ∧ (∀ c ∈ ats, c = AT) ∧
      b ≠ [] ∧ (∀ c ∈ b, c ≠ AT ∧ c ≠ NUL) ∧ (tail = [] ∨ ∃ c, tail = AT :: c) ∧
      List.Forall₂ Blanked (s ++ [NUL]) m ∧
      parse (k + 2) save (some s) = some (copyRun m sv 2 b)) := by
  obtain ⟨ats0, r1, hs, hats0, hr1⟩ := skip_ats s
  rcases hr1 with rfl | ⟨x, xs, rfl, hx⟩
  · -- only delimiters
    left
    have hs2 : s = ats0 := by simpa using hs
    subst hs2
    refine ⟨some s.length, hats0, ?_⟩
    have e := parseLoop_no_token (k + 1) s [] save 0 hats0
    exact e
  · obtain ⟨a, r2, h2, ha, hr2⟩ := take_run (x :: xs)
    have hnea : a ≠ [] := by
      rintro rfl
      rcases hr2 with rfl | ⟨tl, rfl⟩
      · simp at h2
      · simp only [List.nil_append, List.cons.injEq] at h2
        exact hx h2.1
    have hin : ∀ c ∈ a, c ∈ s := by
      intro c hc
      rw [hs, h2]
      simp [hc]
    have hplain : ∀ c ∈ a, c ≠ AT ∧ c ≠ NUL := fun c hc =>
      ⟨ha c hc, fun e => h0 (e ▸ hin c hc)⟩
    rcases hr2 with rfl | ⟨tl, rfl⟩
    · -- one token, the terminator behind it
      right; left
      have hs2 : s = ats0 ++ (a ++ []) := by rw [hs, h2]
      refine ⟨ats0, a, [], s ++ [NUL], some (ats0.length + a.length), hs2, hats0, hnea, ha,
        by simp, blanked_same _, fun _ => rfl, ?_⟩
      have e := parseLoop_one_token k ats0 a [] save 0 hats0 hnea hplain
      have hshape : s ++ [NUL] = ats0 ++ (a ++ NUL :: []) := by
        rw [hs2]
        simp
      simp only [parse]
      rw [hshape]
      exact e
    · obtain ⟨ats, r3, h3, hats, hr3⟩ := skip_ats tl
      rcases hr3 with rfl | ⟨y, ys, rfl, hy⟩
      · -- one token, a run of delimiters behind it
        right; left
        have htl : tl = ats := by simpa using h3
        subst htl
        have hs2 : s = ats0 ++ (a ++ AT :: tl) := by rw [hs, h2]
        have hats1 : ∀ c ∈ AT :: tl, c = AT := by
          intro c hc
          rcases List.mem_cons.1 hc with rfl | hc
          · rfl
          · exact hats c hc
        have hshape : s ++ [NUL] = ats0 ++ (a ++ AT :: (tl ++ NUL :: [])) := by
          rw [hs2]
          simp
        have hbl : List.Forall₂ Blanked (s ++ [NUL]) (ats0 ++ (a ++ NUL :: (tl ++ NUL :: []))) := by
          rw [hshape]
          have := blanked_one (ats0 ++ a) (tl ++ NUL :: [])
          simpa [List.append_assoc] using this
        refine ⟨ats0, a, AT :: tl, ats0 ++ (a ++ NUL :: (tl ++ NUL :: [])),
          some (ats0.length + a.length + 1 + tl.length), hs2, hats0, hnea, ha, hats1, hbl,
          by simp, ?_⟩
        have e := parseLoop_one_token_cut k ats0 a tl [] save 0 hats0 hnea hplain hats
        simp only [parse]
        rw [hshape]
        exact e
      · obtain ⟨b, r4, h4, hb, hr4⟩ := take_run (y :: ys)
        have hneb : b ≠ [] := by
          rintro rfl
          rcases hr4 with rfl | ⟨tl4, rfl⟩
          · simp at h4
          · simp only [List.nil_append, List.cons.injEq] at h4
            exact hy h4.1
        have hs2 : s = ats0 ++ (a ++ AT :: (ats ++ (b ++ r4))) := by rw [hs, h2, h3, h4]
        have hinb : ∀ c ∈ b, c ∈ s := by
          intro c hc
          rw [hs2]
          simp [hc]
        have hplainb : ∀ c ∈ b, c ≠ AT ∧ c ≠ NUL := fun c hc =>
          ⟨hb c hc, fun e => h0 (e ▸ hinb c hc)⟩
        right; right
        rcases hr4 with rfl | ⟨c, rfl⟩
        · have hshape : s ++ [NUL] = ats0 ++ (a ++ AT :: (ats ++ (b ++ NUL :: []))) := by
            rw [hs2]
            simp
          have hbl : List.Forall₂ Blanked (s ++ [NUL])
              (ats0 ++ (a ++ NUL :: (ats ++ (b ++ NUL :: [])))) := by
            rw [hshape]
            have := blanked_one (ats0 ++ a) (ats ++ (b ++ NUL :: []))
            simpa [List.append_assoc] using this
          refine ⟨ats0, a, ats, b, [], ats0 ++ (a ++ NUL :: (ats ++ (b ++ NUL :: []))),
            some (ats0.length + a.length + 1 + ats.length + b.length
              + (if NUL = AT then 1 else 0)),
            hs2, hats0, hnea, ha, hats, hneb, hplainb, Or.inl rfl, hbl, ?_⟩
          have e := parseLoop_two_tokens k ats0 a ats b NUL [] save 0 hats0 hnea hplain
            hats hneb hplainb (Or.inr rfl)
          simp only [parse]
          rw [hshape]
          exact e
        · have hshape : s ++ [NUL]
              = ats0 ++ (a ++ AT :: (ats ++ (b ++ AT :: (c ++ [NUL])))) := by
            rw [hs2]
            simp
          have hbl : List.Forall₂ Blanked (s ++ [NUL])
              (ats0 ++ (a ++ NUL :: (ats ++ (b ++ NUL :: (c ++ [NUL]))))) := by
            rw [hshape]
            have := blanked_two (ats0 ++ a) (ats ++ b) (c ++ [NUL])
            simpa [List.append_assoc] using this
          refine ⟨ats0, a, ats, b, AT :: c,
            ats0 ++ (a ++ NUL :: (ats ++ (b ++ NUL :: (c ++ [NUL])))),
            some (ats0.length + a.length + 1 + ats.length + b.length
              + (if AT = AT then 1 else 0)),
            hs2, hats0, hnea, ha, hats, hneb, hplainb, Or.inr ⟨c, rfl⟩, hbl, ?_⟩
          have e := parseLoop_two_tokens k ats0 a ats b AT (c ++ [NUL]) save 0 hats0 hnea
            hplain hats hneb hplainb (Or.inl rfl)
          simp only [parse]
          rw [hshape]
          exact e

/-! ## Further lemmas on the loop -/

theorem copyRun_fetches (m : List Nat) (sv : Option Nat) (n : Nat) (t : List Nat) :
    (copyRun m sv n t).fetches = n := by
  unfold copyRun
  split <;> rfl

theorem copyRun_token (m : List Nat) (sv : Option Nat) (n : Nat) (t : List Nat) :
    (copyRun m sv n t).token = some t := by
  unfold copyRun
  split <;> rfl

theorem copyRun_buffer (m : List Nat) (sv : Option Nat) (n : Nat) (t : List Nat) :
    (copyRun m sv n t).buffer = strcpy t := by
  unfold copyRun
  split <;> rfl

theorem copyRun_result (m : List Nat) (sv : Option Nat) (n : Nat) (t : List Nat) :
    (copyRun m sv n t).result
      = if (strcpy t).length ≤ BUFSIZE then Result.YES else Result.undefined := by
  unfold copyRun
  split <;> rfl

theorem copyRun_out (m : List Nat) (sv : Option Nat) (n : Nat) (t : List Nat) :
    (copyRun m sv n t).out
      = if (strcpy t).length ≤ BUFSIZE then print_domain (strcpy t) else [] := by
  unfold copyRun
  split <;> rfl

/-- A call of `strtok` with a non-null first argument does not read the saved
pointer. -/
theorem strtok_fresh (mem : List Nat) (save1 save2 : Option Nat) (p : Nat) (delim : List Nat) :
    strtok mem save1 (some p) delim = strtok mem save2 (some p) delim :=
  rfl

/-- The loop entered with a non-null `substr` does not depend on the saved
pointer it finds. -/
theorem parseLoop_fresh (fuel p : Nat) (mem : List Nat) (save1 save2 : Option Nat) (n : Nat) :
    parseLoop fuel (some p) mem save1 n = parseLoop fuel (some p) mem save2 n := by
  cases fuel with
  | zero => rfl
  | succ k => rw [parseLoop, parseLoop, strtok_fresh mem save1 save2 p [AT]]

/-- With one unit of fuel the loop can only end in `"NO"`. -/
theorem parseLoop_short (p : Nat) (mem : List Nat) (save : Option Nat) (n : Nat) (r : Run)
    (h : parseLoop 1 (some p) mem save n = some r) : r.result = Result.NO := by
  rw [parseLoop] at h
  generalize strtok mem save (some p) [AT] = st at h
  rcases st with ⟨_ | t, mem1, save1⟩
  · simp only [Option.some.injEq] at h
    rw [← h]
  · simp only [reduceCtorEq, if_false, parseLoop] at h

/-! ## Claims about the behaviour of `parse` -/

/-- C11, as stated, fails: with an empty first segment the bytes behind the
second `'@'` are the domain (`"@b@c"` gives `c`, `"@b@d"` gives `d`), and with
an empty second segment they decide the result (`"a@@"` gives `"NO"`,
`"a@@c"` gives `"YES"`). -/
theorem tail_read_with_empty_part :
    ((parse 2 none (some ([] ++ AT :: (ascii "b" ++ AT :: ascii "c")))).map Run.domain
        = some (ascii "c") ∧
      (parse 2 none (some ([] ++ AT :: (ascii "b" ++ AT :: ascii "d")))).map Run.domain
        = some (ascii "d") ∧
      ascii "c" ≠ ascii "d") ∧
    ((parse 2 none (some (ascii "a" ++ AT :: ([] ++ AT :: [])))).map Run.result
        = some Result.NO ∧
      (parse 2 none (some (ascii "a" ++ AT :: ([] ++ AT :: ascii "c")))).map Run.result
        = some Result.YES) := by
  decide

/-- C11 (amended): everything after the second `'@'` is ignored when the two
segments in front of it are not empty: for all non-empty strings `a` and `b`
without `'@'` and all strings `c` and `d`, `parse (a ++ "@" ++ b ++ "@" ++ c)`
and `parse (a ++ "@" ++ b ++ "@" ++ d)` end the same way, with the same
extracted domain `b` and the same output. -/
theorem parse_ignores_tail (a b c d : List Nat) (hnea : a ≠ []) (hneb : b ≠ [])
    (ha : AT ∉ a) (ha0 : NUL ∉ a) (hb : AT ∉ b) (hb0 : NUL ∉ b)
    (fuel : Nat) (hf : 2 ≤ fuel) (save : Option Nat) :
    ∃ r r', parse fuel save (some (a ++ AT :: (b ++ AT :: c))) = some r ∧
      parse fuel save (some (a ++ AT :: (b ++ AT :: d))) = some r' ∧
      r.result = r'.result ∧ r.domain = r'.domain ∧ r.out = r'.out ∧
      r.token = some b ∧ r'.token = some b := by
  obtain ⟨k, rfl⟩ : ∃ k, fuel = k + 2 := ⟨fuel - 2, by omega⟩
  have e1 := parseLoop_two_tokens k [] a [] b AT (c ++ [NUL]) save 0 (by simp) hnea
    (plain_of_not_mem a ha ha0) (by simp) hneb (plain_of_not_mem b hb hb0) (Or.inl rfl)
  have e2 := parseLoop_two_tokens k [] a [] b AT (d ++ [NUL]) save 0 (by simp) hnea
    (plain_of_not_mem a ha ha0) (by simp) hneb (plain_of_not_mem b hb hb0) (Or.inl rfl)
  simp only [List.nil_append] at e1 e2
  have h1 : (a ++ AT :: (b ++ AT :: c)) ++ [NUL] = a ++ AT :: (b ++ AT :: (c ++ [NUL])) := by
    simp
  have h2 : (a ++ AT :: (b ++ AT :: d)) ++ [NUL] = a ++ AT :: (b ++ AT :: (d ++ [NUL])) := by
    simp
  rw [← h1] at e1
  rw [← h2] at e2
  refine ⟨_, _, e1, e2, ?_, ?_, ?_, ?_, ?_⟩
  · rw [copyRun_result, copyRun_result]
  · simp only [Run.domain, copyRun_buffer]
  · rw [copyRun_out, copyRun_out]
  · exact copyRun_token _ _ _ _
  · exact copyRun_token _ _ _ _

/-- Instance of `parse_ignores_tail` at the inputs `"a@b@c"` and `"a@b@d@e"`. -/
theorem parse_ignores_tail_witness :
    ∃ r r', parse 2 none (some (ascii "a" ++ AT :: (ascii "b" ++ AT :: ascii "c"))) = some r ∧
      parse 2 none (some (ascii "a" ++ AT :: (ascii "b" ++ AT :: ascii "d@e"))) = some r' ∧
      r.result = r'.result ∧ r.domain = r'.domain ∧ r.out = r'.out ∧
      r.token = some (ascii "b") ∧ r'.token = some (ascii "b") :=
  parse_ignores_tail (ascii "a") (ascii "b") (ascii "c") (ascii "d@e") (by decide) (by decide)
    (by decide) (by decide) (by decide) (by decide) 2 (by decide) none

/-- C12: for every non-null input and any two values of the saved pointer
`strtok` holds when the call starts, `parse` returns, and it leaves the same
run behind: the same result, the same extracted domain, the same output. -/
theorem parse_save_independent (s : List Nat) (save1 save2 : Option Nat) (fuel : Nat)
    (hf : 2 ≤ fuel) :
    ∃ r, parse fuel save1 (some s) = some r ∧ parse fuel save2 (some s) = some r := by
  obtain ⟨k, rfl⟩ : ∃ k, fuel = k + 2 := ⟨fuel - 2, by omega⟩
  obtain ⟨r, hr, -⟩ := parseLoop_exits k 0 (s ++ [NUL]) save1 0
  refine ⟨r, hr, ?_⟩
  simp only [parse]
  rw [parseLoop_fresh (k + 2) 0 (s ++ [NUL]) save2 save1 0]
  exact hr

/-- Instance of `parse_save_independent`: `"alice@example.com"` with a null
saved pointer and with the saved pointer 5. -/
theorem parse_save_independent_witness :
    ∃ r, parse 2 none (some (ascii "alice@example.com")) = some r ∧
      parse 2 (some 5) (some (ascii "alice@example.com")) = some r :=
  parse_save_independent (ascii "alice@example.com") none (some 5) 2 (by decide)

/-- The calls of `strtok` and the exit of the loop, by the tokens of the input.
For every input string and every fuel of two units or more: without a token
the first call returns a null pointer and `parse` returns `"NO"`; with one
token the second call does; with two or more tokens the second call hands out
the second token `b` and the loop is left through the copy step, which returns
`"YES"` when `b` and its terminator fit `buffer`.  A third call is never
made. -/
theorem parse_fetches_by_tokens (s : List Nat) (h0 : NUL ∉ s) (fuel : Nat) (hf : 2 ≤ fuel)
    (save : Option Nat) :
    ∃ r, parse fuel save (some s) = some r ∧
      ((refTokens s = [] ∧ r.fetches = 1 ∧ r.token = none ∧ r.result = Result.NO) ∨
       (∃ a, refTokens s = [a] ∧ r.fetches = 2 ∧ r.token = none ∧ r.result = Result.NO) ∨
       (∃ a b more, refTokens s = a :: b :: more ∧ r.fetches = 2 ∧ r.token = some b ∧
          r.result = if (strcpy b).length ≤ BUFSIZE then Result.YES else Result.undefined)) := by
  obtain ⟨k, rfl⟩ : ∃ k, fuel = k + 2 := ⟨fuel - 2, by omega⟩
  rcases parse_shape s h0 k save with ⟨sv, hall, hp⟩ |
    ⟨ats0, a, ats, m, sv, hs, hats0, hnea, ha, hats, -, -, hp⟩ |
    ⟨ats0, a, ats, b, tail, m, sv, hs, hats0, hnea, ha, hats, hneb, hb, htail, -, hp⟩
  · exact ⟨_, hp, Or.inl ⟨refTokens_all_ats s hall, rfl, rfl, rfl⟩⟩
  · refine ⟨_, hp, Or.inr (Or.inl ⟨a, ?_, rfl, rfl, rfl⟩)⟩
    rw [hs]
    exact refTokens_one ats0 a ats hats0 hnea ha hats
  · obtain ⟨more, hmore⟩ := refTokens_two ats0 a ats b tail hats0 hnea ha hats hneb
      (fun c hc => (hb c hc).1) htail
    rw [← hs] at hmore
    exact ⟨_, hp, Or.inr (Or.inr ⟨a, b, more, hmore, copyRun_fetches _ _ _ _,
      copyRun_token _ _ _ _, copyRun_result _ _ _ _⟩)⟩

/-- C14 fails on the code: for the input `"ab@"` followed by 3000 bytes `'z'`
the loop stops after two calls of `strtok`, with the second token found, but
`parse` does not return found: the copy step stores 3001 bytes through the
1024 byte `buffer`, and the behaviour is undefined from there. -/
theorem found_exit_overruns :
    (parse 2 none (some (ascii "ab@" ++ List.replicate 3000 122))).map Run.fetches = some 2 ∧
    (parse 2 none (some (ascii "ab@" ++ List.replicate 3000 122))).map Run.token
      = some (some (List.replicate 3000 122)) ∧
    (parse 2 none (some (ascii "ab@" ++ List.replicate 3000 122))).map Run.result
      = some Result.undefined ∧
    (parse 2 none (some (ascii "ab@" ++ List.replicate 3000 122))).map Run.result
      ≠ some Result.YES ∧
    (parse 2 none (some (ascii "ab@" ++ List.replicate 3000 122))).map Run.written
      = some 3001 ∧
    BUFSIZE < 3001 := by
  have e := long_token_run 0 (ascii "ab") (List.replicate 3000 122) none (by decide)
    (by decide) (plain_replicate 3000 122 (by decide) (by decide))
    (length_replicate_ge 3000 122 (by decide))
  have hin : ascii "ab@" ++ List.replicate 3000 122
      = ascii "ab" ++ AT :: List.replicate 3000 122 := by
    rfl
  rw [hin, e]
  simp only [Option.map_some', Run.written, strcpy, List.length_append,
    List.length_replicate, List.length_cons, List.length_nil]
  exact ⟨trivial, trivial, trivial, by decide, trivial, by decide⟩

/-- C15: `parse` is the reference `split on '@', drop the empty pieces, take
the second`.  For every input string `s` whose non-empty `'@'` free runs are
all shorter than 1024 bytes, `parse` returns `"YES"` with the domain `t`
exactly when `t` is the second non-empty run of `s`, and it returns `"NO"`
exactly when there is no second non-empty run. -/
theorem parse_refines_refDomain (s : List Nat) (h0 : NUL ∉ s)
    (hlen : ∀ t ∈ refTokens s, t.length < BUFSIZE) (fuel : Nat) (hf : 2 ≤ fuel)
    (save : Option Nat) :
    ∃ r, parse fuel save (some s) = some r ∧
      (∀ t, (r.result = Result.YES ∧ r.domain = t) ↔ refDomain s = some t) ∧
      (r.result = Result.NO ↔ refDomain s = none) := by
  obtain ⟨k, rfl⟩ : ∃ k, fuel = k + 2 := ⟨fuel - 2, by omega⟩
  rcases parse_shape s h0 k save with ⟨sv, hall, hp⟩ |
    ⟨ats0, a, ats, m, sv, hs, hats0, hnea, ha, hats, -, -, hp⟩ |
    ⟨ats0, a, ats, b, tail, m, sv, hs, hats0, hnea, ha, hats, hneb, hb, htail, -, hp⟩
  · have href : refDomain s = none := by
      simp only [refDomain, refTokens_all_ats s hall]
    refine ⟨_, hp, ?_, ?_⟩
    · intro t
      simp [href]
    · simp [href]
  · have href : refDomain s = none := by
      rw [hs]
      simp only [refDomain, refTokens_one ats0 a ats hats0 hnea ha hats]
    refine ⟨_, hp, ?_, ?_⟩
    · intro t
      simp [href]
    · simp [href]
  · obtain ⟨more, hmore⟩ := refTokens_two ats0 a ats b tail hats0 hnea ha hats hneb
      (fun c hc => (hb c hc).1) htail
    rw [← hs] at hmore
    have href : refDomain s = some b := by
      simp only [refDomain, hmore]
    have hfit : (strcpy b).length ≤ BUFSIZE := by
      have hbl := hlen b (by rw [hmore]; simp)
      simp only [strcpy, List.length_append, List.length_cons, List.length_nil]
      omega
    have hdom : (copyRun m sv 2 b).domain = b := by
      simp only [Run.domain, copyRun_buffer]
      exact cstr_strcpy b (fun c hc => (hb c hc).2)
    have hres : (copyRun m sv 2 b).result = Result.YES := by
      rw [copyRun_result, if_pos hfit]
    refine ⟨_, hp, ?_, ?_⟩
    · intro t
      rw [hres, hdom, href]
      simp
    · rw [hres, href]
      simp

/-- Instance of `parse_refines_refDomain` at the input `"@@ab@@cd@e"`, whose
second non-empty run is `cd`. -/
theorem parse_refines_refDomain_witness :
    refDomain (ascii "@@ab@@cd@e") = some (ascii "cd") ∧
    ∃ r, parse 2 none (some (ascii "@@ab@@cd@e")) = some r ∧
      (∀ t, (r.result = Result.YES ∧ r.domain = t) ↔ refDomain (ascii "@@ab@@cd@e") = some t) ∧
      (r.result = Result.NO ↔ refDomain (ascii "@@ab@@cd@e") = none) :=
  ⟨by decide, parse_refines_refDomain (ascii "@@ab@@cd@e") (by decide) (by decide) 2
    (by decide) none⟩

/-- C16: whenever `parse` returns `"YES"` for an input string `s`, the extracted
domain is not empty, contains no `'@'`, and occurs in `s` right behind an `'@'`
and in front of an `'@'` or of the end of `s`. -/
theorem found_domain_in_input (s : List Nat) (h0 : NUL ∉ s) (fuel : Nat)
    (save : Option Nat) (r : Run) (hp : parse fuel save (some s) = some r)
    (hr : r.result = Result.YES) :
    r.domain ≠ [] ∧ AT ∉ r.domain ∧
      ∃ pre post, s = pre ++ AT :: (r.domain ++ post) ∧ (post = [] ∨ ∃ tl, post = AT :: tl) := by
  rcases fuel with _ | _ | k
  · simp [parse, parseLoop] at hp
  · have hno := parseLoop_short 0 (s ++ [NUL]) save 0 r hp
    rw [hr] at hno
    exact absurd hno (by decide)
  · rcases parse_shape s h0 k save with ⟨sv, -, hq⟩ |
      ⟨ats0, a, ats, m, sv, -, -, -, -, -, -, -, hq⟩ |
      ⟨ats0, a, ats, b, tail, m, sv, hs, -, -, -, hats, hneb, hb, htail, -, hq⟩
    · rw [hq] at hp
      simp only [Option.some.injEq] at hp
      rw [← hp] at hr
      exact Result.noConfusion hr
    · rw [hq] at hp
      simp only [Option.some.injEq] at hp
      rw [← hp] at hr
      exact Result.noConfusion hr
    · rw [hq] at hp
      simp only [Option.some.injEq] at hp
      have hdom : r.domain = b := by
        rw [← hp]
        simp only [Run.domain, copyRun_buffer]
        exact cstr_strcpy b (fun c hc => (hb c hc).2)
      rw [hdom]
      refine ⟨hneb, fun hat => (hb AT hat).1 rfl, ats0 ++ (a ++ ats), tail, ?_, htail⟩
      rw [hs]
      have hshift : AT :: (ats ++ (b ++ tail)) = ats ++ AT :: (b ++ tail) := by
        have h := ats_shift ats hats
        calc AT :: (ats ++ (b ++ tail)) = (AT :: ats) ++ (b ++ tail) := rfl
          _ = (ats ++ [AT]) ++ (b ++ tail) := by rw [h]
          _ = ats ++ AT :: (b ++ tail) := by simp
      rw [hshift]
      simp

/-- Instance of `found_domain_in_input` at the input `"alice@example.com"`. -/
theorem found_domain_in_input_witness :
    (copyRun (ascii "alice" ++ NUL :: ascii "example.com" ++ [NUL]) (some 17) 2
        (ascii "example.com")).domain = ascii "example.com" ∧
    ∃ pre post, ascii "alice@example.com"
        = pre ++ AT :: ((copyRun (ascii "alice" ++ NUL :: ascii "example.com" ++ [NUL])
            (some 17) 2 (ascii "example.com")).domain ++ post) ∧
      (post = [] ∨ ∃ tl, post = AT :: tl) :=
  ⟨by decide,
    (found_domain_in_input (ascii "alice@example.com") (by decide) 2 none
      (copyRun (ascii "alice" ++ NUL :: ascii "example.com" ++ [NUL]) (some 17) 2
        (ascii "example.com")) (by decide) (by decide)).2.2⟩

end GetDomain
